import Mathlib

/-!
Verification development for the velocity-estimation core of the
Pitch_control_framework repository (`Metrica_Velocities.py`).

The embedding is a shallow model of the pandas/numpy code:

* A pandas `Series` cell is `Val := Option ℚ`; `none` models `NaN`
  (missing / not-a-number).  All finite float arithmetic is modelled
  exactly over `ℚ`.
* Division by a zero timestep produces `±inf`/`NaN` in numpy; the code
  replaces infinities by `NaN` (lines 94-95 of the source) before any
  other use, so the model maps a zero or missing divisor directly to
  `none`.
* `sqrt` comparisons (`raw_speed > maxspeed` with `maxspeed > 0`) are
  modelled by comparing squares, which is equivalent because `sqrt` is
  strictly monotone on nonnegative reals.
* A pandas `DataFrame` is `Table`: an ordered list of named columns over
  a range index `0, 1, …, n-1`.
* Failures (pandas `KeyError`, `ValueError` on a mismatched-length
  assignment, scipy `ValueError`) are modelled with `Except String`.
-/

/-- A cell of a pandas Series: `none` models `NaN`. -/
abbrev Val := Option ℚ

/-- Subtraction on cells; `NaN` propagates. -/
def subV : Val → Val → Val
  | some a, some b => some (a - b)
  | _, _ => none

/-- Division on cells.  A missing operand gives `NaN`.  A zero divisor
gives `±inf`/`NaN` in numpy, which the source replaces with `NaN`
(lines 94-95) before any other use, so it is mapped to `none` here. -/
def divV : Val → Val → Val
  | some a, some b => if b = 0 then none else some (a / b)
  | _, _ => none

/-- `series.diff()`: first entry `NaN`, then successive differences
`x[i] - x[i-1]` (with `NaN` propagation). -/
def diffV (xs : List Val) : List Val :=
  (List.range xs.length).map fun i =>
    if i = 0 then none else subV (xs.getD i none) (xs.getD (i - 1) none)

/-- Elementwise division of two equally-indexed Series. -/
def divSeries (a b : List Val) : List Val :=
  (List.range a.length).map fun i => divV (a.getD i none) (b.getD i none)

/-- Index and value of the nearest valid entry at or before `i`. -/
def prevValid (xs : List Val) (i : ℕ) : Option (ℕ × ℚ) :=
  (List.range (i + 1)).reverse.findSome? fun j =>
    (xs.getD j none).map fun a => (j, a)

/-- Index and value of the nearest valid entry strictly after `i`. -/
def nextValid (xs : List Val) (i : ℕ) : Option (ℕ × ℚ) :=
  ((List.range xs.length).drop (i + 1)).findSome? fun j =>
    (xs.getD j none).map fun a => (j, a)

/-- One cell of `series.interpolate(limit_direction="both")` with the
default `method="linear"`: present entries are kept; a missing entry is
linearly interpolated between the nearest valid neighbours (positions
treated as equally spaced); with `limit_direction="both"`, a missing
entry before the first valid (resp. after the last valid) entry takes
the first (resp. last) valid value. -/
def interpAt (xs : List Val) (i : ℕ) : Val :=
  match xs.getD i none with
  | some a => some a
  | none =>
    match prevValid xs i, nextValid xs i with
    | some (j, a), some (k, b) =>
        some (a + (b - a) * ((i : ℚ) - (j : ℚ)) / ((k : ℚ) - (j : ℚ)))
    | some (_, a), none => some a
    | none, some (_, b) => some b
    | none, none => none

/-- `series.interpolate(limit_direction="both")`. -/
def interpBoth (xs : List Val) : List Val :=
  (List.range xs.length).map fun i => interpAt xs i

/-- Forward fill with an explicit carry. -/
def ffillAux : Val → List Val → List Val
  | _, [] => []
  | c, none :: t => c :: ffillAux c t
  | _, some a :: t => some a :: ffillAux (some a) t

/-- `series.ffill()`. -/
def ffill (xs : List Val) : List Val := ffillAux none xs

/-- `series.bfill()`. -/
def bfill (xs : List Val) : List Val := (ffillAux none xs.reverse).reverse

/-- `np.convolve(a, v)` (mode `"full"`, zero padding):
`c[k] = Σ_{j} a[j] * v[k-j]` for `k = 0, …, |a| + |v| - 2`. -/
def convFull (a v : List ℚ) : List ℚ :=
  (List.range (a.length + v.length - 1)).map fun k =>
    ((List.range (k + 1)).map fun j => a.getD j 0 * v.getD (k - j) 0).sum

/-- `np.convolve(a, v, mode="same")`: the centered slice of the full
convolution, of length `max |a| |v|`, starting at `(min |a| |v| - 1) / 2`. -/
def convSame (a v : List ℚ) : List ℚ :=
  ((convFull a v).drop ((min a.length v.length - 1) / 2)).take (max a.length v.length)

/-- The window/poly-order adjustment performed by `_savgol_safe`
(source lines 60-78).  `none` means "skip filtering and return the
(gap-filled) series unchanged"; `some (w, p)` are the effective window
and polynomial order passed to `scipy.signal.savgol_filter`. -/
def savgolParams (n : ℕ) (win poly : ℤ) : Option (ℕ × ℤ) :=
  if win < 3 then none
  else
    let w1 := if win % 2 = 0 then win + 1 else win
    let w2 := if w1 > (n : ℤ) then (if n % 2 = 1 then (n : ℤ) else (n : ℤ) - 1) else w1
    if w2 < 3 then none
    else some (w2.toNat, if poly ≥ w2 then max 1 (w2 - 1) else poly)

/-- A total, length-preserving stand-in for the numeric output of the
local polynomial fit: the centered local mean over a window of length
`w` (clipped at the edges).  See `savgolFilter`. -/
def localFit (xs : List ℚ) (w : ℕ) : List ℚ :=
  (List.range xs.length).map fun i =>
    let lo := i - w / 2
    let hi := min (i + w / 2) (xs.length - 1)
    let win := (List.range (hi + 1 - lo)).map fun d => xs.getD (lo + d) 0
    win.sum / (win.length : ℚ)

/-- Modelled from the spec: `scipy.signal.savgol_filter` is an external
library routine, described in the spec as "a local-polynomial
regression smoother with the effective window and order, producing one
smoothed value per input sample (same length as input, centered
window)".  It raises `ValueError` when `window_length` exceeds the
input size (default `mode="interp"`), or when `polyorder` is negative
or not less than `window_length`.  No claim settled in this file
depends on the fitted values — only on this error behaviour, totality
and length preservation — so the fitted values themselves are modelled
by the total, length-preserving `localFit`. -/
def savgolFilter (xs : List ℚ) (w : ℕ) (p : ℤ) : Except String (List ℚ) :=
  if xs.length < w ∨ p < 0 ∨ (w : ℤ) ≤ p then .error ("savgol ValueError")
  else .ok (localFit xs w)

/-- The gap-repair pipeline of `_savgol_safe` (source lines 52-58):
replace infinities (a no-op over `ℚ`, see `divV`), interpolate with
`limit_direction="both"`, then `bfill()`, then `ffill()`. -/
def fill3 (s : List Val) : List Val := ffill (bfill (interpBoth s))

/-- `_savgol_safe(series, win, poly)` (source lines 48-80): replace
infinities (a no-op over `ℚ`, see `divV`), interpolate with
`limit_direction="both"`, `bfill`, `ffill`; then adjust the window and
polynomial order (`savgolParams`) and either return the filled values
unchanged or apply the filter.  If every entry is still missing after
filling (possible only when all entries were missing), scipy's filter
propagates `NaN` to every output entry, which equals the filled series
itself. -/
def savgolSafe (series : List Val) (win poly : ℤ) : Except String (List Val) :=
  let s := fill3 series
  match savgolParams s.length win poly with
  | none => .ok s
  | some (w, p) =>
    if s.all (·.isSome) then
      (savgolFilter (s.map (fun v => v.getD 0)) w p).map (List.map some)
    else .ok s

/-- The uniform averaging kernel `np.ones(int(window)) / float(window)`. -/
def maKernel (window : ℤ) : List ℚ :=
  List.replicate window.toNat (1 / (window : ℚ))

/-- One segment of the moving-average branch (source lines 113-133):
`ffill().bfill()` the values, convolve with the uniform kernel using
`mode="same"`, and assign the result back over the segment.  The
assignment `vx[...] = np.convolve(...)` raises a pandas `ValueError`
when the convolution output length (`max n window`) differs from the
segment length, i.e. exactly when `window > n`.  When every entry is
still missing after filling (all-missing segment), the convolution
propagates `NaN` everywhere, so the assigned values equal the input
segment; the length check still applies. -/
def maSeg (window : ℤ) (xs : List Val) : Except String (List Val) :=
  let vals := bfill (ffill xs)
  let out := convSame (vals.map (fun v => v.getD 0)) (maKernel window)
  if out.length = xs.length then
    .ok (if vals.all (·.isSome) then out.map some else xs)
  else .error ("cannot set using a slice indexer with a different length")

/-- The smoothing dispatch of `calc_player_velocities`
(source lines 98-133) applied to one velocity series.

* With a half-time boundary `b`, segment 1 is rows `0..b` and segment 2
  is rows `b..n-1` (both masks include the boundary row, since both use
  non-strict inequalities).
* The Savitzky-Golay branch writes segment 1 back *before* reading
  segment 2, so segment 2's input at the boundary row is the value just
  smoothed by segment 1.
* The moving-average branch extracts both segments *before* writing
  either back.
* Any other filter string silently skips smoothing. -/
def smoothSeries (filter_ : String) (window poly : ℤ) (shi : Option ℕ) (v : List Val) :
    Except String (List Val) :=
  if filter_ = ("Savitzky-Golay" : String) then
    match shi with
    | none => savgolSafe v window poly
    | some b =>
      match savgolSafe (v.take (b + 1)) window poly with
      | .error e => .error e
      | .ok y1 =>
        match savgolSafe ((y1 ++ v.drop (b + 1)).drop b) window poly with
        | .error e => .error e
        | .ok y2 => .ok ((y1 ++ v.drop (b + 1)).take b ++ y2)
  else if filter_ = ("moving average" : String) then
    match shi with
    | none => maSeg window v
    | some b =>
      match maSeg window (v.take (b + 1)) with
      | .error e => .error e
      | .ok y1 =>
        match maSeg window (v.drop b) with
        | .error e => .error e
        | .ok y2 => .ok ((y1 ++ v.drop (b + 1)).take b ++ y2)
  else .ok v

/-- `raw_speed[i] > maxspeed` for one row: `sqrt(a² + b²) > m` iff
`a² + b² > m²` when `m > 0` (strict monotonicity of `sqrt` on
nonnegative reals).  A `NaN` component makes the comparison `False`
(numpy semantics), so the row is kept. -/
def speedGtAt (m : ℚ) : Val → Val → Bool
  | some a, some b => decide (m * m < a * a + b * b)
  | _, _ => false

/-- Outlier rejection (source lines 88-91): guarded by the Python
truthiness test `maxspeed and maxspeed > 0` (`None` and `0` are falsy),
it sets `vx[i]` and `vy[i]` to `NaN` together wherever the raw speed
strictly exceeds `maxspeed`. -/
def rejectOutliers (ms : Option ℚ) (vx vy : List Val) : List Val × List Val :=
  match ms with
  | none => (vx, vy)
  | some m =>
    if 0 < m then
      ((List.range vx.length).map fun i =>
        if speedGtAt m (vx.getD i none) (vy.getD i none) then none else vx.getD i none,
       (List.range vy.length).map fun i =>
        if speedGtAt m (vx.getD i none) (vy.getD i none) then none else vy.getD i none)
    else (vx, vy)

/-- The per-player body of the loop at source lines 83-133: raw finite
differences divided by `dt`, outlier rejection, inf-removal and
interpolation (lines 93-95), then optional smoothing of `vx` and `vy`.
The source interleaves the `vx`/`vy` smoothing statements; the model
runs `vx` fully, then `vy` — observationally equal, because whether a
branch errors depends only on lengths and parameters, which are the
same for both components. -/
def playerVelocity (smoothing : Bool) (filter_ : String) (window poly : ℤ)
    (ms : Option ℚ) (dt : List Val) (shi : Option ℕ) (x y : List Val) :
    Except String (List Val × List Val) :=
  let vx0 := divSeries (diffV x) dt
  let vy0 := divSeries (diffV y) dt
  let pr := rejectOutliers ms vx0 vy0
  let vx2 := interpBoth pr.1
  let vy2 := interpBoth pr.2
  if smoothing then
    match smoothSeries filter_ window poly shi vx2 with
    | .error e => .error e
    | .ok vx3 =>
      match smoothSeries filter_ window poly shi vy2 with
      | .error e => .error e
      | .ok vy3 => .ok (vx3, vy3)
  else .ok (vx2, vy2)

/-- The integer square root `⌊√n⌋`, computed structurally (so that it
reduces inside the kernel). -/
def natSqrtL (n : ℕ) : ℕ :=
  ((List.range (n + 1)).filter fun k => k * k ≤ n).getLastD 0

/-- An exact rational square root on perfect squares: for a reduced
`q = a / b` with `a`, `b` perfect squares this is the unique
nonnegative rational with square `q` (matching the float `np.sqrt`
there); elsewhere it is some rational approximation.  Claims only ever
evaluate speeds whose squares are perfect squares. -/
def ratSqrt (q : ℚ) : ℚ := (natSqrtL q.num.toNat : ℚ) / (natSqrtL q.den : ℚ)

/-- `np.sqrt(vx**2 + vy**2)` on one row (`NaN` propagates). -/
def speedV : Val → Val → Val
  | some a, some b => some (ratSqrt (a * a + b * b))
  | _, _ => none

/-- The `p_speed` column (source line 138). -/
def speedCol (vx vy : List Val) : List Val :=
  (List.range vx.length).map fun i => speedV (vx.getD i none) (vy.getD i none)

/-- Python `s.split('_')` on a list of characters.  Always nonempty. -/
def splitUnd : List Char → List (List Char)
  | [] => [[]]
  | c :: cs =>
    match splitUnd cs with
    | [] => [[]]
    | h :: t => if c = '_' then [] :: h :: t else (c :: h) :: t

/-- Python `s.split('_')[-1]`: the last chunk of the split. -/
def lastPart (l : List Char) : List Char := (splitUnd l).getLastD []

/-- The suffixes of `remove_player_velocities` (source line 147). -/
def velSuffixes : List (List Char) :=
  [('v' :: 'x' :: []), ('v' :: 'y' :: []), ('a' :: 'x' :: []), ('a' :: 'y' :: []),
   ('s' :: 'p' :: 'e' :: 'e' :: 'd' :: []),
   ('a' :: 'c' :: 'c' :: 'e' :: 'l' :: 'e' :: 'r' :: 'a' :: 't' :: 'i' :: 'o' :: 'n' :: [])]

/-- `c.split('_')[-1] in ['vx', 'vy', 'ax', 'ay', 'speed', 'acceleration']`. -/
def isDerivedName (s : String) : Bool := velSuffixes.contains (lastPart s.data)

/-- Python `c.endswith(x)` for a two-character suffix `[a, b]`. -/
def ends2 (l : List Char) (a b : Char) : Bool :=
  match l.reverse with
  | y :: x :: _ => x = a ∧ y = b
  | _ => false

/-- `c[:4] in ['Home', 'Away'] and c.endswith(('_x', '_y'))`
(source line 35). -/
def isPosCol (s : String) : Bool :=
  (s.data.take 4 = ('H' :: 'o' :: 'm' :: 'e' :: []) ∨
   s.data.take 4 = ('A' :: 'w' :: 'a' :: 'y' :: [])) ∧
  (ends2 s.data '_' 'x' ∨ ends2 s.data '_' 'y')

/-- Python `c[:-2]`. -/
def stripXY (s : String) : String := ⟨s.data.take (s.data.length - 2)⟩

/-- A pandas `DataFrame` over the range index `0, …, n-1`: an ordered
list of named columns. -/
structure Table where
  cols : List (String × List Val)
deriving DecidableEq

/-- The column names, in order (`team.columns`). -/
def Table.names (t : Table) : List String := t.cols.map (·.1)

/-- Column lookup; `none` models a pandas `KeyError`. -/
def Table.getCol? (t : Table) (name : String) : Option (List Val) :=
  (t.cols.find? (fun c => c.1 = name)).map (·.2)

/-- `team[name] = v`: overwrite the column in place if present,
otherwise append it at the end (pandas semantics). -/
def Table.setCol (t : Table) (name : String) (v : List Val) : Table :=
  if t.cols.any (fun c => c.1 = name) then
    ⟨t.cols.map fun c => if c.1 = name then (c.1, v) else c⟩
  else ⟨t.cols ++ [(name, v)]⟩

/-- `remove_player_velocities` (source lines 143-151): drop every
column whose name, split on `_`, ends in one of the derived-field
suffixes.  (The source skips the `drop` call when no column matches;
the resulting *value* is the same either way — the aliasing consequence
is modelled by `callerAfter` below.) -/
def remove_player_velocities (t : Table) : Table :=
  ⟨t.cols.filter fun c => !isDerivedName c.1⟩

/-- The player identifiers (source lines 33-36): strip the last two
characters of every column whose first four characters are `Home` or
`Away` and which ends in `_x` or `_y`.  `np.unique` sorts and
deduplicates; the model deduplicates keeping first occurrences, which
affects only the order in which players are processed — and thereby
only the order of the appended derived columns, not their presence or
values. -/
def player_ids (t : Table) : List String :=
  (((t.names).filter isPosCol).map stripXY).dedup

/-- The first row index with `Period == 2`, if any (source lines 42-46).
A missing (`NaN`) `Period` entry never equals `2`. -/
def second_half_idx (t : Table) : Option ℕ :=
  match t.getCol? ("Period") with
  | none => none
  | some col => (List.range col.length).find? fun i => col.getD i none = some 2

/-- The per-player loop of `calc_player_velocities` (source lines
83-138), carried out on the evolving table: look up the player's
position columns (a missing one raises `KeyError`), compute the
velocities, and write `p_vx`, `p_vy`, `p_speed` back.  Returns the
final table state together with the error that stopped the loop, if
any (writes made before the error persist, as in Python). -/
def estGo (smoothing : Bool) (filter_ : String) (window poly : ℤ) (ms : Option ℚ)
    (dt : List Val) (shi : Option ℕ) : List String → Table → Table × Option String
  | [], t => (t, none)
  | p :: ps, t =>
    match t.getCol? (p ++ "_x"), t.getCol? (p ++ "_y") with
    | some x, some y =>
      match playerVelocity smoothing filter_ window poly ms dt shi x y with
      | .ok (vx, vy) =>
        estGo smoothing filter_ window poly ms dt shi ps
          (((t.setCol (p ++ "_vx") vx).setCol (p ++ "_vy") vy).setCol
            (p ++ "_speed") (speedCol vx vy))
      | .error e => (t, some e)
    | _, _ => (t, some ("KeyError: missing position column"))

/-- The body of `calc_player_velocities` after the initial
`remove_player_velocities` call: compute `dt` from `Time [s]`
(`KeyError` if absent), locate the half-time boundary, and run the
player loop.  Returns the final table state and the error, if any. -/
def estRun (smoothing : Bool) (filter_ : String) (window poly : ℤ) (ms : Option ℚ)
    (t0 : Table) : Table × Option String :=
  match t0.getCol? ("Time [s]") with
  | none => (t0, some ("KeyError: Time [s]"))
  | some timeCol =>
    estGo smoothing filter_ window poly ms (diffV timeCol) (second_half_idx t0)
      (player_ids t0) t0

/-- `calc_player_velocities(team, smoothing, filter_, window, polyorder,
maxspeed)` (source lines 10-140), as the value returned to the caller
(or the exception raised). -/
def calc_player_velocities (t : Table) (smoothing : Bool) (filter_ : String)
    (window poly : ℤ) (ms : Option ℚ) : Except String Table :=
  match estRun smoothing filter_ window poly ms (remove_player_velocities t) with
  | (tf, none) => .ok tf
  | (_, some e) => .error e

/-- The caller's table object after `calc_player_velocities` returns:
`remove_player_velocities` returns a *new* frame only when it actually
drops a column (source lines 149-151); otherwise it returns the very
same object, and every subsequent `team[...] = ...` assignment mutates
the caller's table in place. -/
def callerAfter (t : Table) (smoothing : Bool) (filter_ : String)
    (window poly : ℤ) (ms : Option ℚ) : Table :=
  if t.cols.any (fun c => isDerivedName c.1) then t
  else (estRun smoothing filter_ window poly ms (remove_player_velocities t)).1

/-- The value at row `i` of column `c` of the result of a run
(`none` when the run failed or the column/row is absent). -/
def exVal (r : Except String Table) (c : String) (i : ℕ) : Val :=
  match r with
  | .ok t => ((t.getCol? c).getD []).getD i none
  | .error _ => none

/-! ### Specification-side definitions

These two definitions follow the *specification's words* (not the
source), for comparison with the source-derived definitions above. -/

/-- The spec's player criterion (C4): "the set of players is exactly
the set of prefixes `p` such that both position fields `p_x` and `p_y`
are present in the table schema", with no further condition on the
prefix. -/
def specIsPlayer (t : Table) (p : String) : Prop :=
  (p ++ "_x") ∈ t.names ∧ (p ++ "_y") ∈ t.names

instance (t : Table) (p : String) : Decidable (specIsPlayer t p) := by
  unfold specIsPlayer; infer_instance

/-- The spec's window/poly-order adjustment policy, as claim C5 states
it: skip when the requested window is `< 3`; else increment the window
by 1 if even; clamp to `n` (`n` odd) or `n - 1` (`n` even) when it
exceeds the series length `n`, re-checking the `< 3` floor; and reduce
the poly order to `max 1 (effective_window - 1)` when it is not less
than the effective window. -/
def specAdjustC5 (n : ℕ) (w p : ℤ) : Option (ℕ × ℤ) :=
  if w < 3 then none
  else
    let wOdd := if w % 2 = 0 then w + 1 else w
    let wEff := if wOdd > (n : ℤ) then (if n % 2 = 1 then (n : ℤ) else (n : ℤ) - 1) else wOdd
    if wEff < 3 then none
    else some (wEff.toNat, if p ≥ wEff then max 1 (wEff - 1) else p)

/-! ### Concrete tables used by counterexamples and witnesses -/

/-- The spec's "round-trip scenario" (C2): 10 rows for one player,
`x` increasing by `1.0` per `0.04 s` step, `y` constant. -/
def tTenRow : Table :=
  ⟨[(("Time [s]"), (List.range 10).map fun i => some ((i : ℚ) / 25)),
    (("Home_1_x"), (List.range 10).map fun i => some (i : ℚ)),
    (("Home_1_y"), (List.range 10).map fun _ => some (0 : ℚ))]⟩

/-- A 2-row table for one player (used against C1: a moving-average
window of 3 exceeds the series length 2). -/
def tTwoRow : Table :=
  ⟨[(("Time [s]"), [some 0, some (1 / 25)]),
    (("Home_1_x"), [some 0, some 1]),
    (("Home_1_y"), [some 0, some 0])]⟩

/-- A 3-row table with no pre-existing derived fields (used against
C3: `remove_player_velocities` returns the same object, so the caller's
table is mutated in place). -/
def tNoDerived : Table :=
  ⟨[(("Time [s]"), [some 0, some 1, some 2]),
    (("Home_1_x"), [some 0, some 1, some 2]),
    (("Home_1_y"), [some 0, some 0, some 0])]⟩

/-- `tNoDerived` plus one stray derived column: here the sanitizer
drops a column, hence operates on a fresh copy. -/
def tWithDerived : Table :=
  ⟨(("Home_1_vx"), [some 9, some 9, some 9]) :: tNoDerived.cols⟩

/-- A schema with a `Ball` position pair and an `_x`-only `Home`
column (used against C4). -/
def tSchema : Table :=
  ⟨[(("Time [s]"), []), (("Ball_x"), []), (("Ball_y"), []), (("Home_9_x"), [])]⟩

/-- A 7-row, two-period table for one player: `x` advances by 1 per
1-second step, except that row 3 (the row preceding the half-time
boundary at row 4) holds `spike` instead of `3`. -/
def tSpike (spike : ℚ) : Table :=
  ⟨[(("Time [s]"), (List.range 7).map fun i => some (i : ℚ)),
    (("Period"), [some 1, some 1, some 1, some 1, some 2, some 2, some 2]),
    (("Home_1_x"), [some 0, some 1, some 2, some spike, some 4, some 5, some 6]),
    (("Home_1_y"), (List.range 7).map fun _ => some (0 : ℚ))]⟩

/-- The column of a run's result (`none` when the run failed or the
column is absent). -/
def colOf (r : Except String Table) (c : String) : Option (List Val) :=
  match r with
  | .ok t => t.getCol? c
  | .error _ => none

deriving instance DecidableEq for Except

/-! ### Basic length and shape lemmas -/

theorem ffillAux_length (c : Val) (xs : List Val) : (ffillAux c xs).length = xs.length := by
  induction xs generalizing c with
  | nil => rfl
  | cons h t ih => cases h <;> simp [ffillAux, ih]

theorem ffill_length (xs : List Val) : (ffill xs).length = xs.length := by
  simp [ffill, ffillAux_length]

theorem bfill_length (xs : List Val) : (bfill xs).length = xs.length := by
  simp [bfill, ffillAux_length]

theorem interpBoth_length (xs : List Val) : (interpBoth xs).length = xs.length := by
  simp [interpBoth]

theorem convFull_length (a v : List ℚ) :
    (convFull a v).length = a.length + v.length - 1 := by
  simp [convFull]

theorem convSame_length (a v : List ℚ) (ha : 1 ≤ a.length) (hv : 1 ≤ v.length) :
    (convSame a v).length = max a.length v.length := by
  simp only [convSame, List.length_take, List.length_drop, convFull_length]
  omega

/-- `maSeg` with the `let`-bindings and branch structure exposed. -/
theorem maSeg_eq (window : ℤ) (xs : List Val) :
    maSeg window xs =
      (if (convSame ((bfill (ffill xs)).map fun v => v.getD 0) (maKernel window)).length
          = xs.length then
        .ok (if (bfill (ffill xs)).all (·.isSome) then
              (convSame ((bfill (ffill xs)).map fun v => v.getD 0) (maKernel window)).map some
             else xs)
      else .error ("cannot set using a slice indexer with a different length")) := rfl

set_option maxRecDepth 8192 in
/-- C1 (counterexample): with filter kind `moving average`, smoothing
enabled and a window (3) exceeding the segment length (2), the
estimator does *not* return normally: the pandas assignment of the
length-3 convolution output to the length-2 series raises. -/
theorem c1_counterexample :
    calc_player_velocities tTwoRow true ("moving average") 3 1 none
      = .error ("cannot set using a slice indexer with a different length") := by
  with_unfolding_all decide

/-- C1 (amended): moving-average smoothing of a segment is total and
length-preserving exactly when the window does not exceed the segment
length; when `window > n` the convolution output has length `window`
(numpy `mode="same"` returns `max n window` values) and the write-back
assignment fails. -/
theorem c1_amended (xs : List Val) (window : ℤ) (h1 : 1 ≤ window) :
    (window ≤ (xs.length : ℤ) →
      ∃ ys, maSeg window xs = .ok ys ∧ ys.length = xs.length) ∧
    (1 ≤ xs.length → (xs.length : ℤ) < window →
      maSeg window xs = .error ("cannot set using a slice indexer with a different length")) := by
  have hvals : (bfill (ffill xs)).length = xs.length := by rw [bfill_length, ffill_length]
  have hmap : ((bfill (ffill xs)).map (fun v => v.getD 0)).length = xs.length := by
    rw [List.length_map, hvals]
  have hker : (maKernel window).length = window.toNat := List.length_replicate _ _
  constructor
  · intro h2
    have hlen : (convSame ((bfill (ffill xs)).map fun v => v.getD 0)
        (maKernel window)).length = xs.length := by
      rw [convSame_length _ _ (by omega) (by omega), hmap, hker]; omega
    refine ⟨_, by rw [maSeg_eq, if_pos hlen], ?_⟩
    split
    · rw [List.length_map, hlen]
    · rfl
  · intro h0 h2
    have hlen : (convSame ((bfill (ffill xs)).map fun v => v.getD 0)
        (maKernel window)).length ≠ xs.length := by
      rw [convSame_length _ _ (by omega) (by omega), hmap, hker]; omega
    rw [maSeg_eq, if_neg hlen]

/-- C1 (witness for the amended theorem): on a length-3 segment, a
window of 3 succeeds with a same-length output, and a window of 7
fails. -/
theorem c1_amended_witness :
    (∃ ys, maSeg 3 ([some 1, some 1, some 1]) = .ok ys ∧
      ys.length = ([some 1, some 1, some 1] : List Val).length) ∧
    maSeg 7 ([some 1, some 1, some 1])
      = .error ("cannot set using a slice indexer with a different length") :=
  ⟨(c1_amended ([some 1, some 1, some 1]) 3 (by decide)).1 (by decide),
   (c1_amended ([some 1, some 1, some 1]) 7 (by decide)).2 (by decide) (by decide)⟩

set_option maxRecDepth 8192 in
/-- C2 (counterexample): in the spec's 10-row constant-velocity
scenario (smoothing disabled, `max_speed = 12`) the interior rows do
*not* hold `vx ≈ 25.0`: the raw speed is 25 m/s at every interior row,
which strictly exceeds `max_speed = 12`, so every sample is rejected as
an outlier and the returned value is missing. -/
theorem c2_counterexample :
    exVal (calc_player_velocities tTenRow false ("Savitzky-Golay") 7 1 (some 12))
      ("Home_1_vx") 5 ≠ some 25 := by
  with_unfolding_all decide

set_option maxRecDepth 8192 in
/-- C2 (amended): only the *raw finite difference* at the first row is
missing.  In the 10-row scenario with `max_speed = 12` every raw speed
is 25 > 12, so outlier rejection discards all samples and the returned
`vx`, `vy`, `speed` are missing at *every* row.  With outlier rejection
disabled (`max_speed = 0`) the same table yields `vx = 25` at all rows
*including the first*, because `interpolate(limit_direction="both")`
backfills the first row from the first valid sample; so the returned
first row is missing only when no valid sample exists at all. -/
theorem c2_amended :
    colOf (calc_player_velocities tTenRow false ("Savitzky-Golay") 7 1 (some 12))
        ("Home_1_vx") = some (List.replicate 10 none) ∧
    colOf (calc_player_velocities tTenRow false ("Savitzky-Golay") 7 1 (some 12))
        ("Home_1_vy") = some (List.replicate 10 none) ∧
    colOf (calc_player_velocities tTenRow false ("Savitzky-Golay") 7 1 (some 12))
        ("Home_1_speed") = some (List.replicate 10 none) ∧
    colOf (calc_player_velocities tTenRow false ("Savitzky-Golay") 7 1 (some 0))
        ("Home_1_vx") = some (List.replicate 10 (some 25)) ∧
    colOf (calc_player_velocities tTenRow false ("Savitzky-Golay") 7 1 (some 0))
        ("Home_1_speed") = some (List.replicate 10 (some 25)) := by
  with_unfolding_all decide

set_option maxRecDepth 8192 in
/-- C3 (code bug): when the input table holds *no* pre-existing derived
field, `remove_player_velocities` has nothing to drop and returns the
caller's own object (source lines 149-151); every subsequent
`team[...] = ...` assignment then mutates the caller's table in place,
so after the call the caller's table has gained the derived columns.
When a derived column *is* present, `drop` produces a fresh frame and
the caller's table is left unchanged. -/
theorem c3_mutates_input_without_derived_cols :
    callerAfter tNoDerived false ("Savitzky-Golay") 7 1 (some 12) ≠ tNoDerived ∧
    callerAfter tWithDerived false ("Savitzky-Golay") 7 1 (some 12) = tWithDerived := by
  with_unfolding_all decide

set_option maxRecDepth 8192 in
/-- C4 (counterexample): on a schema with fields `Ball_x`, `Ball_y` and
`Home_9_x`, the prefix `Ball` satisfies the claim's criterion (both
position fields present) yet is *not* a detected player (its first four
characters are neither `Home` nor `Away`), while `Home_9` is detected
even though only its `_x` field exists. -/
theorem c4_counterexample :
    specIsPlayer tSchema ("Ball") ∧ ("Ball") ∉ player_ids tSchema ∧
    ("Home_9") ∈ player_ids tSchema ∧ ¬ specIsPlayer tSchema ("Home_9") := by
  with_unfolding_all decide

/-- C4 (amended): a prefix is a detected player iff it is obtained by
stripping the last two characters of some column name whose first four
characters are `Home` or `Away` and which ends in `_x` *or* `_y` (a
union, not an intersection); a detected player whose partner position
column is absent then makes the estimator raise a `KeyError` instead of
computing any fields for it (second conjunct, on the `tSchema` table). -/
theorem c4_amended :
    (∀ (t : Table) (p : String),
      p ∈ player_ids t ↔ ∃ c ∈ t.names, isPosCol c = true ∧ stripXY c = p) ∧
    calc_player_velocities tSchema true ("Savitzky-Golay") 7 1 (some 12)
      = .error ("KeyError: missing position column") := by
  constructor
  · intro t p
    simp only [player_ids, List.mem_dedup, List.mem_map, List.mem_filter]
    constructor
    · rintro ⟨c, ⟨hc, hpos⟩, hstrip⟩
      exact ⟨c, hc, hpos, hstrip⟩
    · rintro ⟨c, hc, hpos, hstrip⟩
      exact ⟨c, ⟨hc, hpos⟩, hstrip⟩
  · with_unfolding_all decide

theorem getD_range_map {α : Type} (n : ℕ) (f : ℕ → α) (i : ℕ) (d : α) :
    ((List.range n).map f).getD i d = if i < n then f i else d := by
  by_cases h : i < n
  · rw [if_pos h, List.getD_eq_getElem?_getD, List.getElem?_map, List.getElem?_range h]
    rfl
  · rw [if_neg h, List.getD_eq_default]
    simpa using h

theorem getD_isSome_of_all {xs : List Val} (h : xs.all (·.isSome) = true)
    {i : ℕ} (hi : i < xs.length) : (xs.getD i none).isSome = true := by
  rw [List.getD_eq_getElem _ _ hi]
  exact (List.all_eq_true.mp h) _ (xs.getElem_mem hi)

theorem interpBoth_of_allSome {xs : List Val} (h : xs.all (·.isSome) = true) :
    interpBoth xs = xs := by
  apply List.ext_get?
  intro i
  by_cases hi : i < xs.length
  · obtain ⟨a, ha⟩ := Option.isSome_iff_exists.mp (getD_isSome_of_all h hi)
    have h1 : interpAt xs i = some a := by rw [interpAt, ha]
    rw [List.get?_eq_getElem?, List.get?_eq_getElem?, interpBoth, List.getElem?_map,
      List.getElem?_range hi, Option.map_some', h1, List.getElem?_eq_getElem hi,
      ← List.getD_eq_getElem xs none hi, ha]
  · rw [List.get?_eq_getElem?, List.get?_eq_getElem?, List.getElem?_eq_none,
      List.getElem?_eq_none]
    · omega
    · rw [interpBoth_length]; omega

theorem ffillAux_of_allSome (c : Val) {xs : List Val} (h : xs.all (·.isSome) = true) :
    ffillAux c xs = xs := by
  induction xs generalizing c with
  | nil => rfl
  | cons x t ih =>
    cases x with
    | none => simp at h
    | some a =>
      simp only [List.all_cons, Bool.and_eq_true] at h
      simp [ffillAux, ih _ (List.all_eq_true.mpr fun z hz =>
        (List.all_eq_true.mp h.2) z hz)]

theorem ffill_of_allSome {xs : List Val} (h : xs.all (·.isSome) = true) :
    ffill xs = xs := ffillAux_of_allSome none h

theorem bfill_of_allSome {xs : List Val} (h : xs.all (·.isSome) = true) :
    bfill xs = xs := by
  rw [bfill, ffillAux_of_allSome none, List.reverse_reverse]
  rw [List.all_eq_true] at h ⊢
  intro z hz
  exact h z (List.mem_reverse.mp hz)

theorem fill3_of_allSome {xs : List Val} (h : xs.all (·.isSome) = true) :
    fill3 xs = xs := by
  rw [fill3, interpBoth_of_allSome h, bfill_of_allSome h, ffill_of_allSome h]

theorem fill3_length (xs : List Val) : (fill3 xs).length = xs.length := by
  rw [fill3, ffill_length, bfill_length, interpBoth_length]

theorem localFit_length (xs : List ℚ) (w : ℕ) : (localFit xs w).length = xs.length := by
  simp [localFit]

/-- `savgolSafe` with the `let`-binding and match structure exposed. -/
theorem savgolSafe_eq (series : List Val) (win poly : ℤ) :
    savgolSafe series win poly =
      (match savgolParams (fill3 series).length win poly with
      | none => .ok (fill3 series)
      | some (w, p) =>
        if (fill3 series).all (·.isSome) then
          (savgolFilter ((fill3 series).map fun v => v.getD 0) w p).map (List.map some)
        else .ok (fill3 series)) := rfl

/-- Bounds guaranteed by the defensive parameter adjustment: whenever
`_savgol_safe` reaches the scipy call, the effective window is odd, at
least 3, and at most the series length, and the effective poly order is
strictly below it — so the call's preconditions hold. -/
theorem savgolParams_bounds (n : ℕ) (win poly : ℤ) (hp : 0 ≤ poly) (w : ℕ) (p : ℤ)
    (h : savgolParams n win poly = some (w, p)) :
    3 ≤ w ∧ w % 2 = 1 ∧ w ≤ n ∧ 0 ≤ p ∧ p < (w : ℤ) := by
  simp only [savgolParams] at h
  split_ifs at h <;>
    simp only [Option.some.injEq, Prod.mk.injEq] at h <;>
    obtain ⟨hw, hpp⟩ := h <;>
    subst hw <;> subst hpp <;>
    exact ⟨by omega, by omega, by omega, by omega, by omega⟩

theorem savgolSafe_eq_none (series : List Val) (win poly : ℤ)
    (h : savgolParams (fill3 series).length win poly = none) :
    savgolSafe series win poly = .ok (fill3 series) := by
  rw [savgolSafe_eq, h]

theorem savgolSafe_eq_some (series : List Val) (win poly : ℤ) (w : ℕ) (p : ℤ)
    (h : savgolParams (fill3 series).length win poly = some (w, p)) :
    savgolSafe series win poly =
      (if (fill3 series).all (·.isSome) then
        (savgolFilter ((fill3 series).map fun v => v.getD 0) w p).map (List.map some)
      else .ok (fill3 series)) := by
  rw [savgolSafe_eq, h]

theorem savgolSafe_ok (series : List Val) (win poly : ℤ) (hp : 0 ≤ poly) :
    ∃ ys, savgolSafe series win poly = .ok ys ∧ ys.length = series.length := by
  cases hpar : savgolParams (fill3 series).length win poly with
  | none => exact ⟨_, savgolSafe_eq_none _ _ _ hpar, fill3_length series⟩
  | some wp =>
    obtain ⟨w, p⟩ := wp
    obtain ⟨h3, hodd, hle, hp0, hpw⟩ := savgolParams_bounds _ _ _ hp _ _ hpar
    rw [savgolSafe_eq_some _ _ _ _ _ hpar]
    by_cases hall : (fill3 series).all (·.isSome) = true
    · rw [if_pos hall]
      have hcond : ¬(((fill3 series).map fun v => v.getD 0).length < w ∨ p < 0 ∨ (w : ℤ) ≤ p) := by
        rw [List.length_map]
        push_neg
        exact ⟨by omega, by omega, by omega⟩
      rw [savgolFilter, if_neg hcond]
      refine ⟨_, rfl, ?_⟩
      simp [localFit_length, fill3_length]
    · rw [if_neg hall]
      exact ⟨_, rfl, fill3_length series⟩

/-- C5: the adaptive Savitzky-Golay strategy applies exactly the
claimed adjustments: the source's adjustment (`savgolParams`) coincides
with the claim's adjustment policy (`specAdjustC5`); whenever the
adjustment says "skip", a gap-free series is returned unchanged; the
effective parameters always satisfy the scipy preconditions (odd window
`3 ≤ w ≤ n`, `0 ≤ p < w`), so for a nonnegative requested poly order
the strategy never errors and preserves the length; and for a segment
of length 4 with requested window 7 the effective window is 3. -/
theorem c5_savgol_adjustments (series : List Val) (win poly : ℤ) :
    savgolParams series.length win poly = specAdjustC5 series.length win poly ∧
    (series.all (·.isSome) = true →
      savgolParams series.length win poly = none →
      savgolSafe series win poly = .ok series) ∧
    (0 ≤ poly → ∀ w p, savgolParams series.length win poly = some (w, p) →
      3 ≤ w ∧ w % 2 = 1 ∧ w ≤ series.length ∧ 0 ≤ p ∧ p < (w : ℤ)) ∧
    (0 ≤ poly →
      ∃ ys, savgolSafe series win poly = .ok ys ∧ ys.length = series.length) ∧
    savgolParams 4 7 1 = some (3, 1) := by
  refine ⟨rfl, ?_, ?_, savgolSafe_ok series win poly, by decide⟩
  · intro hall hnone
    rw [savgolSafe_eq_none]
    · rw [fill3_of_allSome hall]
    · rw [fill3_of_allSome hall, hnone]
  · intro hp w p h
    exact savgolParams_bounds _ _ _ hp _ _ h

/-- C5 (witness): a gap-free series of length 4 with requested window
7 and poly order 1; the skip path is exercised with requested window 2. -/
theorem c5_savgol_adjustments_witness :
    savgolParams 4 7 1 = some (3, 1) ∧
    (∃ ys, savgolSafe ([some 1, some 2, some 0, some 5]) 7 1 = .ok ys ∧
      ys.length = ([some 1, some 2, some 0, some 5] : List Val).length) ∧
    savgolSafe ([some 1, some 2, some 0, some 5]) 2 1
      = .ok ([some 1, some 2, some 0, some 5]) ∧
    (3 ≤ 3 ∧ 3 % 2 = 1 ∧ 3 ≤ ([some 1, some 2, some 0, some 5] : List Val).length ∧
      (0 : ℤ) ≤ 1 ∧ (1 : ℤ) < ((3 : ℕ) : ℤ)) :=
  ⟨(c5_savgol_adjustments ([some 1, some 2, some 0, some 5]) 7 1).2.2.2.2,
   (c5_savgol_adjustments ([some 1, some 2, some 0, some 5]) 7 1).2.2.2.1 (by decide),
   (c5_savgol_adjustments ([some 1, some 2, some 0, some 5]) 2 1).2.1 (by decide) (by decide),
   (c5_savgol_adjustments ([some 1, some 2, some 0, some 5]) 7 1).2.2.1 (by decide) 3 1
     (by decide)⟩

/-- C7: with a positive `max_speed`, row `i`'s components are both set
to missing exactly when both are present and their squared speed
exceeds `max_speed²` (i.e. the raw speed strictly exceeds `max_speed`;
a missing component makes the comparison `False` and the row is kept);
with `max_speed` absent or zero, the rejection step is skipped entirely
and every raw value is kept.  The final conjunct fixes the pipeline
position: rejection acts on the raw finite differences *before*
interpolation (and smoothing). -/
theorem c7_outlier_rejection (vx vy : List Val) (m : ℚ) (i : ℕ) :
    (0 < m →
      ((rejectOutliers (some m) vx vy).1.getD i none,
       (rejectOutliers (some m) vx vy).2.getD i none)
        = (if speedGtAt m (vx.getD i none) (vy.getD i none) then (none, none)
           else (vx.getD i none, vy.getD i none))) ∧
    rejectOutliers none vx vy = (vx, vy) ∧
    rejectOutliers (some 0) vx vy = (vx, vy) ∧
    (∀ (f : String) (w p : ℤ) (ms : Option ℚ) (dt : List Val) (shi : Option ℕ)
        (x y : List Val),
      playerVelocity false f w p ms dt shi x y =
        .ok (interpBoth (rejectOutliers ms (divSeries (diffV x) dt)
              (divSeries (diffV y) dt)).1,
             interpBoth (rejectOutliers ms (divSeries (diffV x) dt)
              (divSeries (diffV y) dt)).2)) := by
  refine ⟨?_, rfl, by simp [rejectOutliers], fun f w p ms dt shi x y => rfl⟩
  intro hm
  simp only [rejectOutliers, if_pos hm]
  rw [getD_range_map, getD_range_map]
  rcases Nat.lt_or_ge i vx.length with hx | hx <;>
    rcases Nat.lt_or_ge i vy.length with hy | hy
  · rw [if_pos hx, if_pos hy]
    rcases hgt : speedGtAt m (vx.getD i none) (vy.getD i none) <;> simp [hgt]
  · have dy : vy.getD i none = none := List.getD_eq_default _ _ hy
    rw [if_pos hx, if_neg (Nat.not_lt.mpr hy), dy]
    rcases hgt : speedGtAt m (vx.getD i none) none <;> simp [hgt]
  · have dx : vx.getD i none = none := List.getD_eq_default _ _ hx
    rw [if_neg (Nat.not_lt.mpr hx), if_pos hy, dx]
    have hgt : speedGtAt m none (vy.getD i none) = false := rfl
    rw [hgt]
    simp
  · have dx : vx.getD i none = none := List.getD_eq_default _ _ hx
    have dy : vy.getD i none = none := List.getD_eq_default _ _ hy
    rw [if_neg (Nat.not_lt.mpr hx), if_neg (Nat.not_lt.mpr hy), dx, dy]
    have hgt : speedGtAt m none none = false := rfl
    simp [hgt]

/-- C7 (witness): `max_speed = 12`, row 1 with components `(25, 0)` —
raw speed 25 exceeds 12 and the row is rejected. -/
theorem c7_outlier_rejection_witness :
    ((rejectOutliers (some 12) ([some 3, some 25]) ([some 4, some 0])).1.getD 1 none,
     (rejectOutliers (some 12) ([some 3, some 25]) ([some 4, some 0])).2.getD 1 none)
      = (if speedGtAt 12 (([some 3, some 25] : List Val).getD 1 none)
             (([some 4, some 0] : List Val).getD 1 none) then (none, none)
         else (([some 3, some 25] : List Val).getD 1 none,
               ([some 4, some 0] : List Val).getD 1 none)) :=
  (c7_outlier_rejection ([some 3, some 25]) ([some 4, some 0]) 12 1).1 (by norm_num)

theorem smoothSeries_unknown (f : String) (h1 : f ≠ ("Savitzky-Golay" : String))
    (h2 : f ≠ ("moving average" : String)) (window poly : ℤ) (shi : Option ℕ)
    (v : List Val) : smoothSeries f window poly shi v = .ok v := by
  simp only [smoothSeries, if_neg h1, if_neg h2]

theorem playerVelocity_unknown (f : String) (h1 : f ≠ ("Savitzky-Golay" : String))
    (h2 : f ≠ ("moving average" : String)) (window poly : ℤ) (ms : Option ℚ)
    (dt : List Val) (shi : Option ℕ) (x y : List Val) :
    playerVelocity true f window poly ms dt shi x y
      = playerVelocity false f window poly ms dt shi x y := by
  simp [playerVelocity, smoothSeries_unknown f h1 h2]

theorem estGo_unknown (f : String) (h1 : f ≠ ("Savitzky-Golay" : String))
    (h2 : f ≠ ("moving average" : String)) (window poly : ℤ) (ms : Option ℚ)
    (dt : List Val) (shi : Option ℕ) :
    ∀ (ps : List String) (t : Table),
      estGo true f window poly ms dt shi ps t
        = estGo false f window poly ms dt shi ps t := by
  intro ps
  induction ps with
  | nil => intro t; rfl
  | cons q qs ih =>
    intro t
    simp only [estGo]
    cases hX : t.getCol? (q ++ "_x") with
    | none => rfl
    | some x =>
      cases hY : t.getCol? (q ++ "_y") with
      | none => rfl
      | some y =>
        dsimp only
        rw [playerVelocity_unknown f h1 h2 window poly ms dt shi x y]
        cases hpv : playerVelocity false f window poly ms dt shi x y with
        | error e => rfl
        | ok vv => exact ih _

/-- C9: for any filter string other than the two recognized tags, the
`if`/`elif` dispatch has no `else` arm, so smoothing is silently
skipped and the run with smoothing enabled returns exactly the run
with smoothing disabled (same table, same error behaviour). -/
theorem c9_unknown_filter_skips_smoothing (t : Table) (window poly : ℤ)
    (ms : Option ℚ) (f : String) (h1 : f ≠ ("Savitzky-Golay" : String))
    (h2 : f ≠ ("moving average" : String)) :
    calc_player_velocities t true f window poly ms
      = calc_player_velocities t false f window poly ms := by
  rw [calc_player_velocities, calc_player_velocities, estRun, estRun]
  cases hT : (remove_player_velocities t).getCol? ("Time [s]") with
  | none => rfl
  | some timeCol =>
    dsimp only
    rw [estGo_unknown f h1 h2]

/-- C9 (witness): on the two-period spike table a run with the
unrecognized filter string `median` and smoothing enabled equals the
smoothing-disabled run. -/
theorem c9_unknown_filter_skips_smoothing_witness :
    calc_player_velocities (tSpike 3) true ("median") 3 1 none
      = calc_player_velocities (tSpike 3) false ("median") 3 1 none :=
  c9_unknown_filter_skips_smoothing (tSpike 3) 3 1 none ("median")
    (by decide) (by decide)

theorem maSeg_ok_length {window : ℤ} {xs ys : List Val}
    (h : maSeg window xs = .ok ys) : ys.length = xs.length := by
  rw [maSeg_eq] at h
  by_cases hc : (convSame ((bfill (ffill xs)).map fun v => v.getD 0)
      (maKernel window)).length = xs.length
  · rw [if_pos hc] at h
    injection h with h'
    subst h'
    by_cases hall : ((bfill (ffill xs)).all (·.isSome)) = true
    · rw [if_pos hall, List.length_map, hc]
    · rw [if_neg hall]
  · rw [if_neg hc] at h
    exact absurd h (by simp)

theorem savgolFilter_ok_length {xs : List ℚ} {w : ℕ} {p : ℤ} {zs : List ℚ}
    (h : savgolFilter xs w p = .ok zs) : zs.length = xs.length := by
  by_cases hcond : (xs.length < w ∨ p < 0 ∨ (w : ℤ) ≤ p)
  · rw [savgolFilter, if_pos hcond] at h
    exact absurd h (by simp)
  · rw [savgolFilter, if_neg hcond] at h
    injection h with h'
    subst h'
    exact localFit_length xs w

theorem savgolSafe_ok_length {win poly : ℤ} {s ys : List Val}
    (h : savgolSafe s win poly = .ok ys) : ys.length = s.length := by
  cases hpar : savgolParams (fill3 s).length win poly with
  | none =>
    rw [savgolSafe_eq_none _ _ _ hpar] at h
    injection h with h'
    subst h'
    exact fill3_length s
  | some wp =>
    obtain ⟨w, p⟩ := wp
    rw [savgolSafe_eq_some _ _ _ _ _ hpar] at h
    split_ifs at h with hall
    · cases hf : savgolFilter ((fill3 s).map fun v => v.getD 0) w p with
      | error e => rw [hf] at h; exact absurd h (by simp [Except.map])
      | ok zs =>
        rw [hf] at h
        injection h with h'
        subst h'
        rw [List.length_map, savgolFilter_ok_length hf, List.length_map, fill3_length]
    · injection h with h'
      subst h'
      exact fill3_length s

/-- C10: when a half-time boundary `b` exists, the boundary row is
covered by both segment masks; the final value at row `b` is the one
assigned by the *second* segment's smoother (first output entry of the
segment starting at `b`), in both the moving-average and the
Savitzky-Golay branches — the second write overwrites the first.  (In
the Savitzky-Golay branch the second segment reads the value already
smoothed by segment 1, since segment 1 is written back first.) -/
theorem c10_boundary_second_write_wins (v : List Val) (b : ℕ) (window poly : ℤ)
    (hb : b < v.length) :
    (∀ out, smoothSeries ("moving average") window poly (some b) v = .ok out →
      ∃ y2, maSeg window (v.drop b) = .ok y2 ∧ out.getD b none = y2.getD 0 none) ∧
    (∀ out, smoothSeries ("Savitzky-Golay") window poly (some b) v = .ok out →
      ∃ y1 y2, savgolSafe (v.take (b + 1)) window poly = .ok y1 ∧
        savgolSafe ((y1 ++ v.drop (b + 1)).drop b) window poly = .ok y2 ∧
        out.getD b none = y2.getD 0 none) := by
  constructor
  · intro out h
    rw [smoothSeries, if_neg (by decide), if_pos rfl] at h
    cases h1 : maSeg window (v.take (b + 1)) with
    | error e => rw [h1] at h; exact absurd h (by simp)
    | ok y1 =>
      rw [h1] at h
      cases h2 : maSeg window (v.drop b) with
      | error e => rw [h2] at h; exact absurd h (by simp)
      | ok y2 =>
        rw [h2] at h
        injection h with h'
        subst h'
        refine ⟨y2, rfl, ?_⟩
        have hy1 : y1.length = b + 1 := by
          rw [maSeg_ok_length h1, List.length_take]; omega
        have htake : (((y1 ++ v.drop (b + 1)).take b)).length = b := by
          rw [List.length_take, List.length_append, hy1, List.length_drop]; omega
        rw [List.getD_append_right _ _ _ _ (by rw [htake]), htake, Nat.sub_self]
  · intro out h
    cases h1 : savgolSafe (v.take (b + 1)) window poly with
    | error e =>
      rw [smoothSeries, if_pos rfl, h1] at h
      exact absurd h (by simp)
    | ok y1 =>
      cases h2 : savgolSafe ((y1 ++ v.drop (b + 1)).drop b) window poly with
      | error e =>
        rw [smoothSeries, if_pos rfl, h1] at h
        dsimp only at h
        rw [h2] at h
        exact absurd h (by simp)
      | ok y2 =>
        rw [smoothSeries, if_pos rfl, h1] at h
        dsimp only at h
        rw [h2] at h
        injection h with h'
        subst h'
        refine ⟨y1, y2, rfl, h2, ?_⟩
        have hy1 : y1.length = b + 1 := by
          rw [savgolSafe_ok_length h1, List.length_take]; omega
        have htake : (((y1 ++ v.drop (b + 1)).take b)).length = b := by
          rw [List.length_take, List.length_append, hy1, List.length_drop]; omega
        rw [List.getD_append_right _ _ _ _ (by rw [htake]), htake, Nat.sub_self]

set_option maxRecDepth 8192 in
/-- C10 (witness): a constant series of length 5 with boundary at row
2, window 3, poly order 1, exercising both filter branches. -/
theorem c10_boundary_second_write_wins_witness :
    (∃ y2, maSeg 3 ((List.replicate 5 (some (1 : ℚ))).drop 2) = .ok y2 ∧
      ((smoothSeries ("moving average") 3 1 (some 2)
          (List.replicate 5 (some (1 : ℚ)))).toOption.getD []).getD 2 none
        = y2.getD 0 none) ∧
    (∃ y1 y2, savgolSafe ((List.replicate 5 (some (1 : ℚ))).take (2 + 1)) 3 1 = .ok y1 ∧
      savgolSafe ((y1 ++ (List.replicate 5 (some (1 : ℚ))).drop (2 + 1)).drop 2) 3 1
        = .ok y2 ∧
      ((smoothSeries ("Savitzky-Golay") 3 1 (some 2)
          (List.replicate 5 (some (1 : ℚ)))).toOption.getD []).getD 2 none
        = y2.getD 0 none) :=
  ⟨(c10_boundary_second_write_wins (List.replicate 5 (some 1)) 2 3 1 (by decide)).1 _
      (by with_unfolding_all decide),
   (c10_boundary_second_write_wins (List.replicate 5 (some 1)) 2 3 1 (by decide)).2 _
      (by with_unfolding_all decide)⟩

theorem splitUnd_cons (c : Char) (cs : List Char) :
    splitUnd (c :: cs) =
      (match splitUnd cs with
       | [] => [[]]
       | h :: t => if c = '_' then [] :: h :: t else (c :: h) :: t) := rfl

theorem splitUnd_ne_nil (l : List Char) : splitUnd l ≠ [] := by
  cases l with
  | nil => simp [splitUnd]
  | cons c cs =>
    rw [splitUnd_cons]
    cases hsc : splitUnd cs with
    | nil => simp
    | cons h t => by_cases hC : c = '_' <;> simp [hC]

theorem splitUnd_length_mono (c : Char) (l : List Char) :
    (splitUnd l).length ≤ (splitUnd (c :: l)).length := by
  rw [splitUnd_cons]
  cases hsc : splitUnd l with
  | nil => simp
  | cons h t => by_cases hC : c = '_' <;> simp [hC]

theorem splitUnd_length_append (l m : List Char) :
    (splitUnd m).length ≤ (splitUnd (l ++ m)).length := by
  induction l with
  | nil => exact le_refl _
  | cons c cs ih => exact le_trans ih (splitUnd_length_mono c (cs ++ m))

theorem getLastD_irrel {α : Type} {t : List α} (ht : t ≠ []) (d1 d2 : α) :
    t.getLastD d1 = t.getLastD d2 := by
  obtain ⟨a, ha⟩ := Option.isSome_iff_exists.mp (List.getLast?_isSome.mpr ht)
  rw [List.getLastD_eq_getLast?, List.getLastD_eq_getLast?, ha]
  rfl

theorem lastPart_append (l m : List Char) (hm : 2 ≤ (splitUnd m).length) :
    lastPart (l ++ m) = lastPart m := by
  induction l with
  | nil => rfl
  | cons c cs ih =>
    have hlen : 2 ≤ (splitUnd (cs ++ m)).length :=
      le_trans hm (splitUnd_length_append cs m)
    rw [List.cons_append, lastPart, splitUnd_cons]
    cases hsc : splitUnd (cs ++ m) with
    | nil => exact absurd hsc (splitUnd_ne_nil _)
    | cons h t =>
      have ht : t ≠ [] := by
        rw [hsc] at hlen
        simp only [List.length_cons] at hlen
        intro hemp
        rw [hemp] at hlen
        simp at hlen
      have htail : lastPart (cs ++ m) = t.getLastD h := by
        rw [lastPart, hsc, List.getLastD_cons]
      dsimp only
      by_cases hC : c = '_'
      · rw [if_pos hC, List.getLastD_cons, List.getLastD_cons, ← htail, ih]
      · rw [if_neg hC, List.getLastD_cons, getLastD_irrel ht (c :: h) h, ← htail, ih]

theorem string_data_append (s t : String) : (s ++ t).data = s.data ++ t.data := by
  cases s
  cases t
  rfl

theorem isDerivedName_vx (q : String) : isDerivedName (q ++ ("_vx")) = true := by
  rw [isDerivedName, string_data_append, lastPart_append _ _ (by decide)]
  decide

theorem isDerivedName_vy (q : String) : isDerivedName (q ++ ("_vy")) = true := by
  rw [isDerivedName, string_data_append, lastPart_append _ _ (by decide)]
  decide

theorem isDerivedName_speed (q : String) : isDerivedName (q ++ ("_speed")) = true := by
  rw [isDerivedName, string_data_append, lastPart_append _ _ (by decide)]
  decide

theorem filter_map_overwrite (name : String) (v : List Val)
    (h : isDerivedName name = true) (cs : List (String × List Val)) :
    (cs.map fun c => if c.1 = name then (c.1, v) else c).filter
        (fun c => !isDerivedName c.1)
      = cs.filter (fun c => !isDerivedName c.1) := by
  induction cs with
  | nil => rfl
  | cons c cs ih =>
    by_cases hc : c.1 = name
    · have hder : isDerivedName c.1 = true := by rw [hc]; exact h
      simp only [List.map_cons, if_pos hc, List.filter_cons]
      simp [hder, ih]
    · simp only [List.map_cons, if_neg hc, List.filter_cons]
      rw [ih]

theorem remove_setCol_derived {name : String} (h : isDerivedName name = true)
    (t : Table) (v : List Val) :
    remove_player_velocities (t.setCol name v) = remove_player_velocities t := by
  rw [Table.setCol]
  by_cases hp : t.cols.any (fun c => c.1 = name) = true
  · rw [if_pos hp, remove_player_velocities, remove_player_velocities]
    congr 1
    exact filter_map_overwrite name v h t.cols
  · rw [if_neg hp, remove_player_velocities, remove_player_velocities]
    congr 1
    rw [List.filter_append]
    simp [h]

theorem remove_idem (t : Table) :
    remove_player_velocities (remove_player_velocities t)
      = remove_player_velocities t := by
  rw [remove_player_velocities, remove_player_velocities]
  congr 1
  simp [List.filter_filter]

/-- The player loop only writes derived-named columns, so sanitizing
its final state gives the same table as sanitizing its initial state. -/
theorem remove_estGo (s : Bool) (f : String) (w p : ℤ) (ms : Option ℚ)
    (dt : List Val) (shi : Option ℕ) :
    ∀ (ps : List String) (t : Table),
      remove_player_velocities ((estGo s f w p ms dt shi ps t).1)
        = remove_player_velocities t := by
  intro ps
  induction ps with
  | nil => intro t; rfl
  | cons q qs ih =>
    intro t
    simp only [estGo]
    cases hX : t.getCol? (q ++ "_x") with
    | none => rfl
    | some x =>
      cases hY : t.getCol? (q ++ "_y") with
      | none => rfl
      | some y =>
        dsimp only
        cases hpv : playerVelocity s f w p ms dt shi x y with
        | error e => rfl
        | ok vv =>
          obtain ⟨vx, vy⟩ := vv
          dsimp only
          rw [ih, remove_setCol_derived (isDerivedName_speed q),
            remove_setCol_derived (isDerivedName_vy q),
            remove_setCol_derived (isDerivedName_vx q)]

/-- C8: sanitization is idempotent, and a successful estimator run is
idempotent: running the estimator again on its own output with
identical parameters returns that output unchanged.  The second run's
sanitizer drops exactly the derived columns the first run appended
(their names all end in a derived suffix), recovering the first run's
sanitized input, after which the recomputation is identical. -/
theorem c8_idempotence :
    (∀ t : Table, remove_player_velocities (remove_player_velocities t)
      = remove_player_velocities t) ∧
    (∀ (t : Table) (s : Bool) (f : String) (w p : ℤ) (ms : Option ℚ) (u : Table),
      calc_player_velocities t s f w p ms = .ok u →
      calc_player_velocities u s f w p ms = .ok u) := by
  refine ⟨remove_idem, ?_⟩
  intro t s f w p ms u h
  rw [calc_player_velocities] at h ⊢
  cases hT : (remove_player_velocities t).getCol? ("Time [s]") with
  | none =>
    rw [estRun, hT] at h
    simp at h
  | some timeCol =>
    rw [estRun, hT] at h
    dsimp only at h
    cases hgo : estGo s f w p ms (diffV timeCol)
        (second_half_idx (remove_player_velocities t))
        (player_ids (remove_player_velocities t)) (remove_player_velocities t) with
    | mk tf oe =>
      rw [hgo] at h
      cases oe with
      | some e => simp at h
      | none =>
        dsimp only at h
        injection h with h'
        subst h'
        have hru : remove_player_velocities tf = remove_player_velocities t := by
          have h1 := remove_estGo s f w p ms (diffV timeCol)
            (second_half_idx (remove_player_velocities t))
            (player_ids (remove_player_velocities t)) (remove_player_velocities t)
          rw [hgo] at h1
          dsimp only at h1
          rw [remove_idem] at h1
          exact h1
        rw [hru, estRun, hT]
        dsimp only
        rw [hgo]

set_option maxRecDepth 8192 in
/-- C8 (witness): the sanitizer applied twice to a table with a stray
derived column, and a full re-run of the estimator on its own output
for the 10-row scenario table. -/
theorem c8_idempotence_witness :
    remove_player_velocities (remove_player_velocities tWithDerived)
      = remove_player_velocities tWithDerived ∧
    calc_player_velocities
        ((calc_player_velocities tTenRow false ("Savitzky-Golay") 7 1
          (some 12)).toOption.getD ⟨[]⟩) false ("Savitzky-Golay") 7 1 (some 12)
      = .ok ((calc_player_velocities tTenRow false ("Savitzky-Golay") 7 1
          (some 12)).toOption.getD ⟨[]⟩) :=
  ⟨c8_idempotence.1 tWithDerived,
   c8_idempotence.2 tTenRow false ("Savitzky-Golay") 7 1 (some 12) _
     (by with_unfolding_all decide)⟩

theorem diffV_length (xs : List Val) : (diffV xs).length = xs.length := by
  simp [diffV]

theorem divSeries_length (a bs : List Val) : (divSeries a bs).length = a.length := by
  simp [divSeries]

theorem get?_eq_some_getD {l : List Val} {i : ℕ} (h : i < l.length) :
    l.get? i = some (l.getD i none) := by
  rw [List.get?_eq_getElem?, List.getElem?_eq_getElem h, List.getD_eq_getElem _ _ h]

theorem dropFrom_eq {b : ℕ} {u u' : List Val} (hl : u.length = u'.length)
    (he : ∀ i, b ≤ i → u.getD i none = u'.getD i none) : u.drop b = u'.drop b := by
  apply List.ext_get?
  intro j
  rw [List.get?_eq_getElem?, List.get?_eq_getElem?, List.getElem?_drop, List.getElem?_drop,
    ← List.get?_eq_getElem?, ← List.get?_eq_getElem?]
  by_cases hj : b + j < u.length
  · rw [get?_eq_some_getD hj, get?_eq_some_getD (by omega : b + j < u'.length),
      he (b + j) (by omega)]
  · rw [List.get?_eq_none.mpr (by omega), List.get?_eq_none.mpr (by omega)]

theorem diffV_getD (xs : List Val) (i : ℕ) :
    (diffV xs).getD i none =
      if i < xs.length then
        (if i = 0 then none else subV (xs.getD i none) (xs.getD (i - 1) none))
      else none := getD_range_map _ _ _ _

theorem divSeries_getD (a bs : List Val) (i : ℕ) :
    (divSeries a bs).getD i none =
      if i < a.length then divV (a.getD i none) (bs.getD i none) else none :=
  getD_range_map _ _ _ _

theorem interpBoth_getD (xs : List Val) (i : ℕ) :
    (interpBoth xs).getD i none = if i < xs.length then interpAt xs i else none :=
  getD_range_map _ _ _ _

theorem interpBoth_getD_present {xs : List Val} {i : ℕ}
    (h : (xs.getD i none).isSome = true) :
    (interpBoth xs).getD i none = xs.getD i none := by
  have hi : i < xs.length := by
    by_contra hno
    rw [List.getD_eq_default _ _ (by omega)] at h
    simp at h
  obtain ⟨a, ha⟩ := Option.isSome_iff_exists.mp h
  rw [interpBoth_getD, if_pos hi, interpAt, ha]

theorem diffV_eqFrom {x x' : List Val} {b : ℕ} (hl : x.length = x'.length)
    (he : ∀ j, b - 1 ≤ j → x.getD j none = x'.getD j none) :
    ∀ i, b ≤ i → (diffV x).getD i none = (diffV x').getD i none := by
  intro i hi
  rw [diffV_getD, diffV_getD, ← hl]
  by_cases hlt : i < x.length
  · rw [if_pos hlt, if_pos hlt]
    by_cases h0 : i = 0
    · rw [if_pos h0, if_pos h0]
    · rw [if_neg h0, if_neg h0, he i (by omega), he (i - 1) (by omega)]
  · rw [if_neg hlt, if_neg hlt]

theorem divSeries_eqFrom {a a' : List Val} {b : ℕ} (hl : a.length = a'.length)
    (he : ∀ j, b ≤ j → a.getD j none = a'.getD j none) (dt : List Val) :
    ∀ i, b ≤ i → (divSeries a dt).getD i none = (divSeries a' dt).getD i none := by
  intro i hi
  rw [divSeries_getD, divSeries_getD, ← hl]
  by_cases hlt : i < a.length
  · rw [if_pos hlt, if_pos hlt, he i hi]
  · rw [if_neg hlt, if_neg hlt]

theorem reject_fst_length (ms : Option ℚ) (vx vy : List Val) :
    (rejectOutliers ms vx vy).1.length = vx.length := by
  cases ms with
  | none => rfl
  | some m =>
    simp only [rejectOutliers]
    split <;> simp

theorem reject_snd_length (ms : Option ℚ) (vx vy : List Val) :
    (rejectOutliers ms vx vy).2.length = vy.length := by
  cases ms with
  | none => rfl
  | some m =>
    simp only [rejectOutliers]
    split <;> simp

theorem reject_eqFrom {vx vx' vy vy' : List Val} {b : ℕ}
    (hlx : vx.length = vx'.length) (hly : vy.length = vy'.length)
    (hex : ∀ j, b ≤ j → vx.getD j none = vx'.getD j none)
    (hey : ∀ j, b ≤ j → vy.getD j none = vy'.getD j none) (ms : Option ℚ) :
    ∀ i, b ≤ i →
      (rejectOutliers ms vx vy).1.getD i none
        = (rejectOutliers ms vx' vy').1.getD i none ∧
      (rejectOutliers ms vx vy).2.getD i none
        = (rejectOutliers ms vx' vy').2.getD i none := by
  intro i hi
  cases ms with
  | none => exact ⟨hex i hi, hey i hi⟩
  | some m =>
    by_cases hm : 0 < m
    · simp only [rejectOutliers, if_pos hm]
      rw [getD_range_map, getD_range_map, getD_range_map, getD_range_map, ← hlx, ← hly]
      constructor
      · by_cases hlt : i < vx.length
        · rw [if_pos hlt, if_pos hlt, hex i hi, hey i hi]
        · rw [if_neg hlt, if_neg hlt]
      · by_cases hlt : i < vy.length
        · rw [if_pos hlt, if_pos hlt, hex i hi, hey i hi]
        · rw [if_neg hlt, if_neg hlt]
    · simp only [rejectOutliers, if_neg hm]
      exact ⟨hex i hi, hey i hi⟩

/-- Two runs of the two-segment moving-average smoother agree on every
row of the second segment (boundary row included) as soon as their
inputs agree on the rows of the second segment. -/
theorem maTwoSeg_eqFrom (window poly : ℤ) (b : ℕ) (v v' : List Val)
    (hlen : v.length = v'.length) (hb : b < v.length)
    (hdrop : v.drop b = v'.drop b) :
    ∀ out out',
      smoothSeries ("moving average") window poly (some b) v = .ok out →
      smoothSeries ("moving average") window poly (some b) v' = .ok out' →
      ∀ i, b ≤ i → out.getD i none = out'.getD i none := by
  intro out out' h h' i hi
  rw [smoothSeries, if_neg (by decide), if_pos rfl] at h h'
  cases h1 : maSeg window (v.take (b + 1)) with
  | error e => rw [h1] at h; exact absurd h (by simp)
  | ok y1 =>
    rw [h1] at h
    cases h2 : maSeg window (v.drop b) with
    | error e => rw [h2] at h; exact absurd h (by simp)
    | ok y2 =>
      rw [h2] at h
      injection h with hEq
      cases h1' : maSeg window (v'.take (b + 1)) with
      | error e => rw [h1'] at h'; exact absurd h' (by simp)
      | ok y1' =>
        rw [h1', ← hdrop, h2] at h'
        injection h' with hEq'
        subst hEq
        subst hEq'
        have hy1 : y1.length = b + 1 := by
          rw [maSeg_ok_length h1, List.length_take]; omega
        have hy1' : y1'.length = b + 1 := by
          rw [maSeg_ok_length h1', List.length_take]; omega
        have ht1 : ((y1 ++ v.drop (b + 1)).take b).length = b := by
          rw [List.length_take, List.length_append, hy1, List.length_drop]; omega
        have ht1' : ((y1' ++ v'.drop (b + 1)).take b).length = b := by
          rw [List.length_take, List.length_append, hy1', List.length_drop]; omega
        rw [List.getD_append_right _ _ _ _ (by rw [ht1]; exact hi),
          List.getD_append_right _ _ _ _ (by rw [ht1']; exact hi), ht1, ht1']

/-- C6 (amended): second-segment isolation holds for the
moving-average filter under the two corrections the code forces:
the untouched region must start at the row *preceding* the boundary
(because the boundary row's velocity is differenced against it), and
the cleaned velocities on the second segment must have no missing
entries (because `interpolate` runs globally, so a gap at a
second-segment row would be filled from first-segment values).  Under
those hypotheses, two runs whose positions agree from row `b - 1`
onward produce identical smoothed `vx` and `vy` at every row from the
boundary `b` onward. -/
theorem c6_amended (time x x' y y' : List Val) (b : ℕ) (window poly : ℤ)
    (ms : Option ℚ)
    (hlx : x.length = x'.length) (hly : y.length = y'.length)
    (hlyx : y.length = x.length) (hb : b < x.length)
    (hxeq : ∀ i, b - 1 ≤ i → x.getD i none = x'.getD i none)
    (hyeq : ∀ i, b - 1 ≤ i → y.getD i none = y'.getD i none)
    (hpres : ∀ i, b ≤ i → i < x.length →
      ((rejectOutliers ms (divSeries (diffV x) (diffV time))
          (divSeries (diffV y) (diffV time))).1.getD i none).isSome = true ∧
      ((rejectOutliers ms (divSeries (diffV x) (diffV time))
          (divSeries (diffV y) (diffV time))).2.getD i none).isSome = true) :
    ∀ o o',
      playerVelocity true ("moving average") window poly ms (diffV time) (some b) x y
        = .ok o →
      playerVelocity true ("moving average") window poly ms (diffV time) (some b) x' y'
        = .ok o' →
      ∀ i, b ≤ i →
        o.1.getD i none = o'.1.getD i none ∧ o.2.getD i none = o'.2.getD i none := by
  intro o o' ho ho'
  have hlddx : (diffV x).length = (diffV x').length := by
    rw [diffV_length, diffV_length, hlx]
  have hlddy : (diffV y).length = (diffV y').length := by
    rw [diffV_length, diffV_length, hly]
  have hlvx0 : (divSeries (diffV x) (diffV time)).length
      = (divSeries (diffV x') (diffV time)).length := by
    rw [divSeries_length, divSeries_length, diffV_length, diffV_length, hlx]
  have hlvy0 : (divSeries (diffV y) (diffV time)).length
      = (divSeries (diffV y') (diffV time)).length := by
    rw [divSeries_length, divSeries_length, diffV_length, diffV_length, hly]
  have hrej := reject_eqFrom hlvx0 hlvy0
    (divSeries_eqFrom hlddx (diffV_eqFrom hlx hxeq) (diffV time))
    (divSeries_eqFrom hlddy (diffV_eqFrom hly hyeq) (diffV time)) ms
  have hlw1 : (rejectOutliers ms (divSeries (diffV x) (diffV time))
      (divSeries (diffV y) (diffV time))).1.length = x.length := by
    rw [reject_fst_length, divSeries_length, diffV_length]
  have hlw1p : (rejectOutliers ms (divSeries (diffV x') (diffV time))
      (divSeries (diffV y') (diffV time))).1.length = x.length := by
    rw [reject_fst_length, divSeries_length, diffV_length, hlx]
  have hlw2 : (rejectOutliers ms (divSeries (diffV x) (diffV time))
      (divSeries (diffV y) (diffV time))).2.length = x.length := by
    rw [reject_snd_length, divSeries_length, diffV_length, hlyx]
  have hlw2p : (rejectOutliers ms (divSeries (diffV x') (diffV time))
      (divSeries (diffV y') (diffV time))).2.length = x.length := by
    rw [reject_snd_length, divSeries_length, diffV_length, ← hly, hlyx]
  have hv1eq : ∀ i, b ≤ i →
      (interpBoth (rejectOutliers ms (divSeries (diffV x) (diffV time))
        (divSeries (diffV y) (diffV time))).1).getD i none
      = (interpBoth (rejectOutliers ms (divSeries (diffV x') (diffV time))
        (divSeries (diffV y') (diffV time))).1).getD i none := by
    intro i hi
    by_cases hlt : i < x.length
    · have hp := hpres i hi hlt
      have e2 := (hrej i hi).1
      have hp2 : ((rejectOutliers ms (divSeries (diffV x') (diffV time))
          (divSeries (diffV y') (diffV time))).1.getD i none).isSome = true := by
        rw [← e2]; exact hp.1
      rw [interpBoth_getD_present hp.1, interpBoth_getD_present hp2, e2]
    · rw [List.getD_eq_default _ _ (by rw [interpBoth_length, hlw1]; omega),
        List.getD_eq_default _ _ (by rw [interpBoth_length, hlw1p]; omega)]
  have hv2eq : ∀ i, b ≤ i →
      (interpBoth (rejectOutliers ms (divSeries (diffV x) (diffV time))
        (divSeries (diffV y) (diffV time))).2).getD i none
      = (interpBoth (rejectOutliers ms (divSeries (diffV x') (diffV time))
        (divSeries (diffV y') (diffV time))).2).getD i none := by
    intro i hi
    by_cases hlt : i < x.length
    · have hp := hpres i hi hlt
      have e2 := (hrej i hi).2
      have hp2 : ((rejectOutliers ms (divSeries (diffV x') (diffV time))
          (divSeries (diffV y') (diffV time))).2.getD i none).isSome = true := by
        rw [← e2]; exact hp.2
      rw [interpBoth_getD_present hp.2, interpBoth_getD_present hp2, e2]
    · rw [List.getD_eq_default _ _ (by rw [interpBoth_length, hlw2]; omega),
        List.getD_eq_default _ _ (by rw [interpBoth_length, hlw2p]; omega)]
  have hdrop1 : (interpBoth (rejectOutliers ms (divSeries (diffV x) (diffV time))
        (divSeries (diffV y) (diffV time))).1).drop b
      = (interpBoth (rejectOutliers ms (divSeries (diffV x') (diffV time))
        (divSeries (diffV y') (diffV time))).1).drop b :=
    dropFrom_eq (by rw [interpBoth_length, interpBoth_length, hlw1, hlw1p]) hv1eq
  have hdrop2 : (interpBoth (rejectOutliers ms (divSeries (diffV x) (diffV time))
        (divSeries (diffV y) (diffV time))).2).drop b
      = (interpBoth (rejectOutliers ms (divSeries (diffV x') (diffV time))
        (divSeries (diffV y') (diffV time))).2).drop b :=
    dropFrom_eq (by rw [interpBoth_length, interpBoth_length, hlw2, hlw2p]) hv2eq
  rw [playerVelocity] at ho ho'
  try dsimp only at ho ho'
  cases hsx : smoothSeries ("moving average") window poly (some b)
      (interpBoth (rejectOutliers ms (divSeries (diffV x) (diffV time))
        (divSeries (diffV y) (diffV time))).1) with
  | error e => rw [hsx] at ho; exact absurd ho (by simp)
  | ok vx3 =>
    rw [hsx] at ho
    try dsimp only at ho
    cases hsy : smoothSeries ("moving average") window poly (some b)
        (interpBoth (rejectOutliers ms (divSeries (diffV x) (diffV time))
          (divSeries (diffV y) (diffV time))).2) with
    | error e => rw [hsy] at ho; exact absurd ho (by simp)
    | ok vy3 =>
      rw [hsy] at ho
      injection ho with hoeq
      subst hoeq
      cases hsx' : smoothSeries ("moving average") window poly (some b)
          (interpBoth (rejectOutliers ms (divSeries (diffV x') (diffV time))
            (divSeries (diffV y') (diffV time))).1) with
      | error e => rw [hsx'] at ho'; exact absurd ho' (by simp)
      | ok vx3' =>
        rw [hsx'] at ho'
        try dsimp only at ho'
        cases hsy' : smoothSeries ("moving average") window poly (some b)
            (interpBoth (rejectOutliers ms (divSeries (diffV x') (diffV time))
              (divSeries (diffV y') (diffV time))).2) with
        | error e => rw [hsy'] at ho'; exact absurd ho' (by simp)
        | ok vy3' =>
          rw [hsy'] at ho'
          injection ho' with hoeq'
          subst hoeq'
          intro i hi
          constructor
          · exact maTwoSeg_eqFrom window poly b _ _
              (by rw [interpBoth_length, interpBoth_length, hlw1, hlw1p])
              (by rw [interpBoth_length, hlw1]; exact hb) hdrop1 vx3 vx3' hsx hsx' i hi
          · exact maTwoSeg_eqFrom window poly b _ _
              (by rw [interpBoth_length, interpBoth_length, hlw2, hlw2p])
              (by rw [interpBoth_length, hlw2]; exact hb) hdrop2 vy3 vy3' hsy hsy' i hi

set_option maxRecDepth 8192 in
/-- C6 (counterexample): on a 7-row table with the half-time boundary
at row 4, injecting a position spike at row 3 — the row preceding the
boundary, i.e. strictly before the boundary row — changes the smoothed
`vx` at row 5, a second-segment row other than the boundary row
(`1` without the spike, `-7/3` with it): the boundary row's velocity is
differenced against the spiked position and feeds the second segment's
convolution. -/
theorem c6_counterexample :
    exVal (calc_player_velocities (tSpike 3) true ("moving average") 3 1 none)
        ("Home_1_vx") 5
      ≠ exVal (calc_player_velocities (tSpike 13) true ("moving average") 3 1 none)
        ("Home_1_vx") 5 := by
  with_unfolding_all decide

set_option maxRecDepth 8192 in
/-- C6 (witness for the amended theorem): two 5-row runs whose
positions differ only at row 0 (strictly before row `b - 1 = 1`), with
boundary `b = 2`, gap-free cleaned velocities on the second segment,
moving-average window 3: the smoothed outputs agree at row 3. -/
theorem c6_amended_witness :
    ((playerVelocity true ("moving average") 3 1 none
        (diffV ([some 0, some 1, some 2, some 3, some 4])) (some 2)
        ([some 5, some 1, some 2, some 3, some 4])
        (List.replicate 5 (some 0))).toOption.getD ([], [])).1.getD 3 none
      = ((playerVelocity true ("moving average") 3 1 none
        (diffV ([some 0, some 1, some 2, some 3, some 4])) (some 2)
        ([some 0, some 1, some 2, some 3, some 4])
        (List.replicate 5 (some 0))).toOption.getD ([], [])).1.getD 3 none ∧
    ((playerVelocity true ("moving average") 3 1 none
        (diffV ([some 0, some 1, some 2, some 3, some 4])) (some 2)
        ([some 5, some 1, some 2, some 3, some 4])
        (List.replicate 5 (some 0))).toOption.getD ([], [])).2.getD 3 none
      = ((playerVelocity true ("moving average") 3 1 none
        (diffV ([some 0, some 1, some 2, some 3, some 4])) (some 2)
        ([some 0, some 1, some 2, some 3, some 4])
        (List.replicate 5 (some 0))).toOption.getD ([], [])).2.getD 3 none :=
  c6_amended ([some 0, some 1, some 2, some 3, some 4])
    ([some 5, some 1, some 2, some 3, some 4])
    ([some 0, some 1, some 2, some 3, some 4])
    (List.replicate 5 (some 0)) (List.replicate 5 (some 0)) 2 3 1 none
    rfl rfl rfl (by decide)
    (by
      intro i hi
      have hi1 : 1 ≤ i := by omega
      rcases Nat.lt_or_ge i 5 with h5 | h5
      · interval_cases i <;> rfl
      · rw [List.getD_eq_default _ _ (by simpa using h5),
          List.getD_eq_default _ _ (by simpa using h5)])
    (fun i hi => rfl)
    (by
      intro i h1 h2
      have h2' : i < 5 := by simpa using h2
      interval_cases i <;>
        exact ⟨by with_unfolding_all decide, by with_unfolding_all decide⟩)
    ((playerVelocity true ("moving average") 3 1 none
        (diffV ([some 0, some 1, some 2, some 3, some 4])) (some 2)
        ([some 5, some 1, some 2, some 3, some 4])
        (List.replicate 5 (some 0))).toOption.getD ([], []))
    ((playerVelocity true ("moving average") 3 1 none
        (diffV ([some 0, some 1, some 2, some 3, some 4])) (some 2)
        ([some 0, some 1, some 2, some 3, some 4])
        (List.replicate 5 (some 0))).toOption.getD ([], []))
    (by with_unfolding_all decide) (by with_unfolding_all decide) 3 (by decide)
